import Mathlib

/-!
Verification of the rain-monitor core

Shallow embedding of `custom_components/irrigationprogram/rain_monitor.py`
(class `RainMonitor`) and proofs about its reconciliation algorithm.

Modelling conventions:
* Python floats are modelled as rationals (`ℚ`); timestamps are rationals
  measured in seconds (`timedelta.total_seconds()`), so `self._period =
  timedelta(hours=accumulation_period)` becomes `3600 * accumulation_period`
  and `time_diff` in hours is a division by `3600`.
* The gauge callback receives `new_state.state`, a string fed to `float(...)`
  inside a `try`/`except (ValueError, TypeError)` block.  We model the input
  as `Option ℚ`: `some v` when parsing succeeds with value `v`, `none` when
  `float(...)` raises (or when `new_state is None`, the early return).
* Event wiring (`async_track_state_change_event`, logging, Home Assistant)
  is the out-of-scope host; the embedded operations are the callback bodies.
-/

/-- A retained reading, mirroring the tuples stored in `RainMonitor._readings`:
`(timestamp, value, reset)` where `reset = true` marks a reset point. -/
abbrev Reading : Type := ℚ × ℚ × Bool

/-- Reason codes returned by `should_prevent_watering` (the constants
`CONST_RAIN_ACCUMULATED`, `CONST_HEAVY_RAIN`, `CONST_LIGHT_RAIN` imported
from `const.py`). -/
inductive ReasonCode where
  | RAIN_ACCUMULATED
  | HEAVY_RAIN
  | LIGHT_RAIN
deriving DecidableEq, Repr

/-- State of the `RainMonitor` class: the mutable fields set in `__init__`
(`_accumulation`, `_readings`, `_last_intensity`, `_last_value`,
`_daily_accumulation`) together with the construction-time configuration
(`_period`, `_threshold`). -/
structure RainMonitor where
  accumulation : ℚ
  readings : List Reading
  last_intensity : ℚ
  last_value : ℚ
  daily_accumulation : ℚ
  period : ℚ
  threshold : ℚ
deriving DecidableEq, Repr

/-- Constructor `RainMonitor.__init__`: zero scalars, empty log; `_period` is
`timedelta(hours=accumulation_period)`, i.e. `3600 * accumulation_period`
seconds. -/
def RainMonitor.init (threshold : ℚ) (accumulation_period : ℚ) : RainMonitor :=
  { accumulation := 0
    readings := []
    last_intensity := 0
    last_value := 0
    daily_accumulation := 0
    period := 3600 * accumulation_period
    threshold := threshold }

/-- The accumulation loop of `_handle_rain_gauge_change`
(`for ts, val, is_reset in self._readings: ...`), threading the loop
variables `self._accumulation` (`accumulation`), `prev_val` and `prev_ts`.
In the source the reset branch assigns `prev_val = 0.0`, but that store is
dead: `prev_val = val` after the `if`/`else` overwrites it on every
iteration, so `prev_val` entering the next iteration is always `val`. -/
def accumGo (accumulation prev_val : ℚ) (prev_ts : Option ℚ) :
    List Reading → ℚ
  | [] => accumulation
  | (ts, val, is_reset) :: rest =>
      let acc :=
        match prev_ts with
        | none => accumulation
        | some _ =>
            if is_reset then accumulation
            else
              let diff := val - prev_val
              if diff > 0 then accumulation + diff else accumulation
      accumGo acc val (some ts) rest

/-- Initialization `self._accumulation = 0.0; prev_val = 0.0; prev_ts = None`
followed by the accumulation loop over the trimmed log. -/
def computeAccumulation (l : List Reading) : ℚ :=
  accumGo 0 0 none l

/-- The intensity computation of `_handle_rain_gauge_change`:
`recent_readings` filters the non-reset entries out of the final two log
slots (`self._readings[-2:]`), so it holds at most two pairs and the Python
guard `len(recent_readings) >= 2` is exactly the `[p, q]` pattern, with
`recent_readings[-1] = q` and `recent_readings[-2] = p`.  When the guard
fails the source sets `self._last_intensity = 0.0`; when `time_diff <= 0`
no assignment happens and the previous intensity is kept. -/
def computeIntensity (last_intensity : ℚ) (readings : List Reading) : ℚ :=
  let recent_readings :=
    ((readings.drop (readings.length - 2)).filter (fun r => !r.2.2)).map
      (fun r => (r.1, r.2.1))
  match recent_readings with
  | [p, q] =>
      let time_diff := (q.1 - p.1) / 3600
      if time_diff > 0 then (q.2 - p.2) / time_diff else last_intensity
  | _ => 0

/-- Callback `_handle_midnight_reset`: reset `_last_value` to 0 and append a reset
marker `(timestamp, 0.0, True)`; no trim of the log and no recompute of
accumulation or intensity happen here. -/
def RainMonitor.handle_midnight_reset (m : RainMonitor) (timestamp : ℚ) :
    RainMonitor :=
  { m with
    last_value := 0
    readings := m.readings ++ [(timestamp, 0, true)] }

/-- Callback `_handle_rain_gauge_change`: `none` models a state value on which
`float(...)` raises `ValueError`/`TypeError` (the whole body is inside the
`try`, so the state is returned unchanged), as well as the
`new_state is None` early return.  On a parsed value: classify as reset if
`current_value < self._last_value` (adding `current_value` to
`_daily_accumulation`), append the entry, update `_last_value`, drop
entries with `ts <= cutoff_time` where `cutoff_time = timestamp -
self._period`, then recompute accumulation and intensity from the trimmed
log. -/
def RainMonitor.handle_rain_gauge_change (m : RainMonitor) (timestamp : ℚ)
    (new_state : Option ℚ) : RainMonitor :=
  match new_state with
  | none => m
  | some current_value =>
      let (daily, entry) :=
        if current_value < m.last_value then
          (m.daily_accumulation + current_value, (timestamp, current_value, true))
        else
          (m.daily_accumulation, (timestamp, current_value, false))
      let cutoff_time := timestamp - m.period
      let readings :=
        (m.readings ++ [entry]).filter (fun r => decide (r.1 > cutoff_time))
      { m with
        daily_accumulation := daily
        last_value := current_value
        readings := readings
        accumulation := computeAccumulation readings
        last_intensity := computeIntensity m.last_intensity readings }

/-- Policy `should_prevent_watering`: the priority-ordered suppression policy;
`none` models the Python `None` reason. -/
def RainMonitor.should_prevent_watering (m : RainMonitor) :
    Bool × Option ReasonCode :=
  if m.accumulation ≥ m.threshold then (true, some .RAIN_ACCUMULATED)
  else if m.last_intensity > 10 then (true, some .HEAVY_RAIN)
  else if m.last_intensity > 2 then (true, some .LIGHT_RAIN)
  else (false, none)

/-- Feed a sequence of timestamped parsed readings through the gauge
callback, in order. -/
def ingestSeq (m : RainMonitor) (l : List (ℚ × ℚ)) : RainMonitor :=
  l.foldl (fun st p => st.handle_rain_gauge_change p.1 (some p.2)) m

/-! ## Basic lemmas about the accumulation fold -/

/-- The accumulated total is an additive accumulator: the fold only ever
adds to it. -/
theorem accumGo_shift (l : List Reading) :
    ∀ (a v : ℚ) (pts : Option ℚ), accumGo a v pts l = a + accumGo 0 v pts l := by
  induction l with
  | nil => intro a v pts; simp [accumGo]
  | cons x rest ih =>
      rcases x with ⟨ts, val, is_reset⟩
      intro a v pts
      cases pts with
      | none => simp only [accumGo]; rw [ih, ih 0]
      | some t =>
          simp only [accumGo]
          cases is_reset
          · simp only [Bool.false_eq_true, if_false]
            by_cases hd : val - v > 0
            · rw [if_pos hd, if_pos hd, ih, ih (0 + (val - v))]
              ring
            · rw [if_neg hd, if_neg hd, ih, ih 0]
          · rw [if_pos rfl, if_pos rfl, ih, ih 0]

/-- Only whether a previous timestamp exists matters to the fold, never its
value (the source compares `prev_ts` with `None` and nothing else). -/
theorem accumGo_ts (l : List Reading) :
    ∀ (a v t t' : ℚ), accumGo a v (some t) l = accumGo a v (some t') l := by
  induction l with
  | nil => intro a v t t'; simp [accumGo]
  | cons x rest _ =>
      rcases x with ⟨ts, val, is_reset⟩
      intro a v t t'
      simp only [accumGo]

/-- The value of `prev_val` after the fold has walked a list: the raw value
of its last entry, or the starting value for an empty list. -/
def endVal (v : ℚ) (l : List Reading) : ℚ :=
  (l.map (fun r => r.2.1)).getLastD v

theorem endVal_nil (v : ℚ) : endVal v [] = v := rfl

theorem endVal_cons (v ts val : ℚ) (b : Bool) (l : List Reading) :
    endVal v ((ts, val, b) :: l) = endVal val l := by
  simp only [endVal, List.map_cons, List.getLastD_cons]

/-- Splitting the accumulation fold at an append: the second half starts
from the total and the last value of the first half. -/
theorem accumGo_append (l₁ : List Reading) :
    ∀ (l₂ : List Reading) (a v t : ℚ),
      accumGo a v (some t) (l₁ ++ l₂)
        = accumGo (accumGo a v (some t) l₁) (endVal v l₁) (some t) l₂ := by
  induction l₁ with
  | nil => intro l₂ a v t; simp [accumGo, endVal_nil]
  | cons x rest ih =>
      rcases x with ⟨ts, val, is_reset⟩
      intro l₂ a v t
      simp only [List.cons_append, accumGo, endVal_cons, List.append_eq]
      rw [ih]
      exact accumGo_ts l₂ _ _ ts t

theorem computeAccumulation_nil : computeAccumulation [] = 0 := rfl

/-- The first log entry only seeds `prev_val`/`prev_ts`; it never adds to
the total. -/
theorem computeAccumulation_cons (t v : ℚ) (b : Bool) (l : List Reading) :
    computeAccumulation ((t, v, b) :: l) = accumGo 0 v (some t) l := rfl

/-- Walking a reset entry adds nothing to the total but rebases `prev_val`
on the reset entry's own raw value; a following regular entry then adds the
positive part of its difference from that value. -/
theorem accumGo_reset_then_one (a p t ta v tb w : ℚ) :
    accumGo a p (some t) [(ta, v, true), (tb, w, false)]
      = a + (if w - v > 0 then w - v else 0) := by
  norm_num [accumGo]
  split_ifs <;> first | ring | linarith

/-- A reset entry followed by two increasing regular readings contributes
exactly (last − the reset entry's raw value). -/
theorem accumGo_reset_then_two (a p t ta r1 tb r2 tc r3 : ℚ)
    (h12 : r1 < r2) (h23 : r2 < r3) :
    accumGo a p (some t) [(ta, r1, true), (tb, r2, false), (tc, r3, false)]
      = a + (r3 - r1) := by
  norm_num [accumGo]
  split_ifs <;> first | ring | linarith

/-- Recomputing over an appended log: the suffix is folded starting from
the prefix's total and last raw value. -/
theorem computeAccumulation_append (l₁ l₂ : List Reading) (hl : l₁ ≠ []) :
    computeAccumulation (l₁ ++ l₂)
      = accumGo (computeAccumulation l₁) (endVal 0 l₁) (some 0) l₂ := by
  rcases l₁ with _ | ⟨⟨t, v, b⟩, rest⟩
  · exact absurd rfl hl
  · simp only [List.cons_append, computeAccumulation_cons, endVal_cons]
    rw [accumGo_append]
    exact accumGo_ts l₂ _ _ t 0

/-- Appending a reset marker of raw value `v` and then one regular reading
of value `w` adds the positive part of `w − v` to the recomputed total —
the baseline after a reset marker is its own raw value, not 0. -/
theorem computeAccumulation_reset_one (l : List Reading) (ta v tb w : ℚ) :
    computeAccumulation (l ++ [(ta, v, true), (tb, w, false)])
      = computeAccumulation l + (if w - v > 0 then w - v else 0) := by
  rcases eq_or_ne l [] with rfl | hl
  · simp only [List.nil_append, computeAccumulation_nil, computeAccumulation_cons]
    norm_num [accumGo]
    try split_ifs <;> first | ring | linarith
  · rw [computeAccumulation_append l _ hl, accumGo_reset_then_one]

/-- Appending a reset marker of raw value `r1` and two increasing regular
readings `r2 < r3` adds exactly `r3 − r1`; the prefix's contribution is
untouched by the reset entry's value. -/
theorem computeAccumulation_reset_two (l : List Reading) (ta r1 tb r2 tc r3 : ℚ)
    (h12 : r1 < r2) (h23 : r2 < r3) :
    computeAccumulation (l ++ [(ta, r1, true), (tb, r2, false), (tc, r3, false)])
      = computeAccumulation l + (r3 - r1) := by
  rcases eq_or_ne l [] with rfl | hl
  · simp only [List.nil_append, computeAccumulation_cons, computeAccumulation_nil]
    norm_num [accumGo]
    try split_ifs <;> first | ring | linarith
  · rw [computeAccumulation_append l _ hl,
      accumGo_reset_then_two _ _ _ _ _ _ _ _ _ h12 h23]

/-- Over a run of non-reset entries with nondecreasing values the fold
telescopes: it adds exactly (last value − starting value). -/
theorem accumGo_chain_le (l : List (ℚ × ℚ)) :
    ∀ (a v t : ℚ), List.Chain (· ≤ ·) v (l.map Prod.snd) →
      accumGo a v (some t) (l.map (fun p => (p.1, p.2, false)))
        = a + ((l.map Prod.snd).getLastD v - v) := by
  induction l with
  | nil =>
      intro a v t _
      simp [accumGo]
  | cons x rest ih =>
      rcases x with ⟨t₁, v₁⟩
      intro a v t hchain
      simp only [List.map_cons] at hchain
      rcases List.chain_cons.mp hchain with ⟨hv, hrest⟩
      simp only [List.map_cons, accumGo, Bool.false_eq_true, if_false,
        List.getLastD_cons]
      by_cases hd : v₁ - v > 0
      · rw [if_pos hd, ih _ _ _ hrest]
        ring
      · have hvv : v₁ = v := le_antisymm (by linarith) hv
        rw [if_neg hd, ih _ _ _ hrest, hvv]

/-! ## Characterizing the gauge-change callback -/

/-- The window filter keeps a list unchanged when every entry is newer than
the cutoff. -/
theorem filter_cutoff_eq_self (l : List Reading) (c : ℚ)
    (h : ∀ r ∈ l, c < r.1) :
    l.filter (fun r => decide (r.1 > c)) = l :=
  List.filter_eq_self.mpr (fun r hr => decide_eq_true (h r hr))

/-- Unfolding of the gauge callback on a parsed value that is not
classified as a reset (`current_value ≥ _last_value`). -/
theorem handle_change_nonreset (m : RainMonitor) (t v : ℚ)
    (h : ¬ v < m.last_value) :
    m.handle_rain_gauge_change t (some v)
      = { m with
          last_value := v
          readings := (m.readings ++ [(t, v, false)]).filter
            (fun r => decide (r.1 > t - m.period))
          accumulation := computeAccumulation
            ((m.readings ++ [(t, v, false)]).filter
              (fun r => decide (r.1 > t - m.period)))
          last_intensity := computeIntensity m.last_intensity
            ((m.readings ++ [(t, v, false)]).filter
              (fun r => decide (r.1 > t - m.period))) } := by
  simp only [RainMonitor.handle_rain_gauge_change, if_neg h]

/-- Unfolding of the gauge callback on a parsed value classified as a reset
(`current_value < _last_value`): `current_value` itself is what is added to
`_daily_accumulation`. -/
theorem handle_change_reset (m : RainMonitor) (t v : ℚ)
    (h : v < m.last_value) :
    m.handle_rain_gauge_change t (some v)
      = { m with
          daily_accumulation := m.daily_accumulation + v
          last_value := v
          readings := (m.readings ++ [(t, v, true)]).filter
            (fun r => decide (r.1 > t - m.period))
          accumulation := computeAccumulation
            ((m.readings ++ [(t, v, true)]).filter
              (fun r => decide (r.1 > t - m.period)))
          last_intensity := computeIntensity m.last_intensity
            ((m.readings ++ [(t, v, true)]).filter
              (fun r => decide (r.1 > t - m.period))) } := by
  simp only [RainMonitor.handle_rain_gauge_change, if_pos h]

/-- Non-reset ingest in which no retained entry falls outside the window:
the filter is the identity. -/
theorem handle_change_nonreset_notrim (m : RainMonitor) (t v : ℚ)
    (h : ¬ v < m.last_value)
    (htrim : ∀ r ∈ m.readings, t - m.period < r.1) (hper : 0 < m.period) :
    m.handle_rain_gauge_change t (some v)
      = { m with
          last_value := v
          readings := m.readings ++ [(t, v, false)]
          accumulation := computeAccumulation (m.readings ++ [(t, v, false)])
          last_intensity := computeIntensity m.last_intensity
            (m.readings ++ [(t, v, false)]) } := by
  have hall : ∀ r ∈ m.readings ++ [(t, v, false)], t - m.period < r.1 := by
    intro r hr
    rcases List.mem_append.mp hr with h1 | h1
    · exact htrim r h1
    · rw [List.mem_singleton.mp h1]
      show t - m.period < t
      linarith
  rw [handle_change_nonreset m t v h, filter_cutoff_eq_self _ _ hall]

/-- Reset ingest in which no retained entry falls outside the window. -/
theorem handle_change_reset_notrim (m : RainMonitor) (t v : ℚ)
    (h : v < m.last_value)
    (htrim : ∀ r ∈ m.readings, t - m.period < r.1) (hper : 0 < m.period) :
    m.handle_rain_gauge_change t (some v)
      = { m with
          daily_accumulation := m.daily_accumulation + v
          last_value := v
          readings := m.readings ++ [(t, v, true)]
          accumulation := computeAccumulation (m.readings ++ [(t, v, true)])
          last_intensity := computeIntensity m.last_intensity
            (m.readings ++ [(t, v, true)]) } := by
  have hall : ∀ r ∈ m.readings ++ [(t, v, true)], t - m.period < r.1 := by
    intro r hr
    rcases List.mem_append.mp hr with h1 | h1
    · exact htrim r h1
    · rw [List.mem_singleton.mp h1]
      show t - m.period < t
      linarith
  rw [handle_change_reset m t v h, filter_cutoff_eq_self _ _ hall]

/-- The intensity stored by the callback is always `computeIntensity` of the
old intensity and the trimmed log. -/
theorem handle_change_intensity (m : RainMonitor) (t v : ℚ) :
    (m.handle_rain_gauge_change t (some v)).last_intensity
      = computeIntensity m.last_intensity
          (m.handle_rain_gauge_change t (some v)).readings := by
  by_cases h : v < m.last_value
  · rw [handle_change_reset m t v h]
  · rw [handle_change_nonreset m t v h]

/-- The accumulation stored by the callback is always `computeAccumulation`
of the trimmed log. -/
theorem handle_change_accumulation (m : RainMonitor) (t v : ℚ) :
    (m.handle_rain_gauge_change t (some v)).accumulation
      = computeAccumulation (m.handle_rain_gauge_change t (some v)).readings := by
  by_cases h : v < m.last_value
  · rw [handle_change_reset m t v h]
  · rw [handle_change_nonreset m t v h]

/-! ## Lemmas about the intensity computation -/

/-- When the log ends in two non-reset entries, `computeIntensity` divides
their value difference by their elapsed time in hours — unless the elapsed
time is nonpositive, in which case it returns the old intensity. -/
theorem computeIntensity_last_two (old : ℚ) (rest : List Reading)
    (t1 v1 t2 v2 : ℚ) :
    computeIntensity old (rest ++ [(t1, v1, false), (t2, v2, false)])
      = if (t2 - t1) / 3600 > 0 then (v2 - v1) / ((t2 - t1) / 3600) else old := by
  unfold computeIntensity
  have hdrop : (rest ++ [(t1, v1, false), (t2, v2, false)]).drop
      ((rest ++ [(t1, v1, false), (t2, v2, false)]).length - 2)
      = [(t1, v1, false), (t2, v2, false)] := by
    have : (rest ++ [(t1, v1, false), (t2, v2, false)]).length - 2
        = rest.length := by
      simp [List.length_append]
    rw [this]
    exact List.drop_left rest _
  rw [hdrop]
  simp [List.filter]

/-- When the final two log slots contain fewer than two non-reset entries,
`computeIntensity` returns exactly 0. -/
theorem computeIntensity_short (old : ℚ) (l : List Reading)
    (h : ((l.drop (l.length - 2)).filter (fun r => !r.2.2)).length < 2) :
    computeIntensity old l = 0 := by
  unfold computeIntensity
  generalize hm : ((l.drop (l.length - 2)).filter (fun r => !r.2.2)).map
      (fun r => (r.1, r.2.1)) = recent
  have hlen : recent.length < 2 := by
    rw [← hm, List.length_map]
    exact h
  rcases recent with _ | ⟨x, _ | ⟨y, _ | ⟨z, r'⟩⟩⟩
  · rfl
  · rfl
  · simp at hlen
  · simp at hlen
    omega

/-! ## Claim theorems -/

/-- C5: for every state and every raw input value that cannot be parsed as
a finite number (modelled as `none`), `ingestReading` leaves the entire
state unchanged — the reading log, accumulation, intensity, last raw value
and lifetime reset carry all retain their prior values; the error does not
propagate (the callback returns normally). -/
theorem invalid_reading_state_unchanged (m : RainMonitor) (t : ℚ) :
    m.handle_rain_gauge_change t none = m ∧
    (m.handle_rain_gauge_change t none).readings = m.readings ∧
    (m.handle_rain_gauge_change t none).accumulation = m.accumulation ∧
    (m.handle_rain_gauge_change t none).last_intensity = m.last_intensity ∧
    (m.handle_rain_gauge_change t none).last_value = m.last_value ∧
    (m.handle_rain_gauge_change t none).daily_accumulation
      = m.daily_accumulation :=
  ⟨rfl, rfl, rfl, rfl, rfl, rfl⟩

/-- C3: `evaluateSuppression` is a pure function of the current
accumulation and intensity evaluated in strict priority order, first match
winning: accumulation ≥ threshold wins over any intensity; otherwise
intensity > 10 gives HEAVY_RAIN; otherwise intensity > 2 gives LIGHT_RAIN;
otherwise no suppression and no reason. -/
theorem should_prevent_watering_priority (m : RainMonitor) :
    (m.threshold ≤ m.accumulation →
      m.should_prevent_watering = (true, some ReasonCode.RAIN_ACCUMULATED)) ∧
    (m.accumulation < m.threshold → 10 < m.last_intensity →
      m.should_prevent_watering = (true, some ReasonCode.HEAVY_RAIN)) ∧
    (m.accumulation < m.threshold → m.last_intensity ≤ 10 →
      2 < m.last_intensity →
      m.should_prevent_watering = (true, some ReasonCode.LIGHT_RAIN)) ∧
    (m.accumulation < m.threshold → m.last_intensity ≤ 2 →
      m.should_prevent_watering = (false, none)) := by
  refine ⟨fun h1 => ?_, fun h1 h2 => ?_, fun h1 h2 h3 => ?_, fun h1 h2 => ?_⟩ <;>
    simp only [RainMonitor.should_prevent_watering, ge_iff_le, gt_iff_lt]
  · rw [if_pos h1]
  · rw [if_neg (not_le.mpr h1), if_pos h2]
  · rw [if_neg (not_le.mpr h1), if_neg (not_lt.mpr h2), if_pos h3]
  · rw [if_neg (not_le.mpr h1), if_neg (not_lt.mpr (by linarith)),
      if_neg (not_lt.mpr h2)]

/-- C3 witness: accumulation = threshold = 5 with intensity 20 suppresses
with reason RAIN_ACCUMULATED (priority 1 beats priorities 2 and 3). -/
theorem should_prevent_watering_priority_witness :
    (⟨5, [], 20, 0, 0, 86400, 5⟩ : RainMonitor).should_prevent_watering
      = (true, some ReasonCode.RAIN_ACCUMULATED) :=
  (should_prevent_watering_priority ⟨5, [], 20, 0, 0, 86400, 5⟩).1 (by norm_num)

/-- C6: after every successful ingest with timestamp `t`, every retained
reading has timestamp strictly greater than `t − window_duration`, and the
recomputed accumulation is a function of exactly the retained readings, so
evicted readings never contribute to it. -/
theorem window_eviction_strict (m : RainMonitor) (t v : ℚ) :
    (∀ r ∈ (m.handle_rain_gauge_change t (some v)).readings,
        t - m.period < r.1) ∧
    (m.handle_rain_gauge_change t (some v)).accumulation
      = computeAccumulation (m.handle_rain_gauge_change t (some v)).readings := by
  refine ⟨fun r hr => ?_, handle_change_accumulation m t v⟩
  by_cases h : v < m.last_value
  · have hr' : r ∈ (m.readings ++ [(t, v, true)]).filter
        (fun r => decide (r.1 > t - m.period)) := by
      rw [handle_change_reset m t v h] at hr
      exact hr
    have hdec := List.of_mem_filter hr'
    exact of_decide_eq_true hdec
  · have hr' : r ∈ (m.readings ++ [(t, v, false)]).filter
        (fun r => decide (r.1 > t - m.period)) := by
      rw [handle_change_nonreset m t v h] at hr
      exact hr
    have hdec := List.of_mem_filter hr'
    exact of_decide_eq_true hdec

/-- C6 witness: ingest value 2 at time 0 into a fresh monitor with a 1-hour
window; the single retained reading `(0, 2, false)` is newer than the
cutoff `0 − 3600`, and the stored accumulation is the recomputation over
the retained log. -/
theorem window_eviction_strict_witness :
    (0 : ℚ) - (RainMonitor.init 5 1).period < ((0 : ℚ), (2 : ℚ), false).1 ∧
    ((RainMonitor.init 5 1).handle_rain_gauge_change 0 (some 2)).accumulation
      = computeAccumulation
          ((RainMonitor.init 5 1).handle_rain_gauge_change 0 (some 2)).readings :=
  ⟨(window_eviction_strict (RainMonitor.init 5 1) 0 2).1 (0, 2, false)
      (by norm_num [RainMonitor.handle_rain_gauge_change, RainMonitor.init,
        computeAccumulation, accumGo, computeIntensity]),
    (window_eviction_strict (RainMonitor.init 5 1) 0 2).2⟩

/-- C9: when the trimmed log ends in two non-reset entries whose elapsed
time is ≤ 0 (duplicate or out-of-order timestamps), the ingest leaves the
intensity unchanged from its previous value; the division by elapsed hours
only happens under the guard `elapsed > 0`. -/
theorem intensity_nonpositive_elapsed_unchanged (m : RainMonitor) (t v : ℚ)
    (rest : List Reading) (t1 v1 t2 v2 : ℚ)
    (hread : (m.handle_rain_gauge_change t (some v)).readings
        = rest ++ [(t1, v1, false), (t2, v2, false)])
    (helapsed : t2 - t1 ≤ 0) :
    (m.handle_rain_gauge_change t (some v)).last_intensity
      = m.last_intensity := by
  rw [handle_change_intensity, hread, computeIntensity_last_two]
  rw [if_neg (not_lt.mpr (div_nonpos_iff.mpr (Or.inr ⟨helapsed, by norm_num⟩)))]

/-- C9 witness: two readings at the same timestamp 0; the second ingest
keeps the previous intensity instead of dividing by the zero elapsed
time. -/
theorem intensity_nonpositive_elapsed_unchanged_witness :
    (((RainMonitor.init 100 24).handle_rain_gauge_change 0
        (some 5)).handle_rain_gauge_change 0 (some 7)).last_intensity
      = ((RainMonitor.init 100 24).handle_rain_gauge_change 0
          (some 5)).last_intensity :=
  intensity_nonpositive_elapsed_unchanged
    ((RainMonitor.init 100 24).handle_rain_gauge_change 0 (some 5)) 0 7
    [] 0 5 0 7
    (by norm_num [RainMonitor.handle_rain_gauge_change, RainMonitor.init,
      computeAccumulation, accumGo, computeIntensity])
    (by norm_num)

/-- C4: after an ingest, if the last two slots of the trimmed log hold
non-reset entries with positive elapsed time, the intensity equals their
value difference divided by the elapsed time in hours; if fewer than two
non-reset entries are found among those final two slots, the intensity is
set to exactly 0. -/
theorem intensity_last_two_slots (m : RainMonitor) (t v : ℚ) :
    (∀ (rest : List Reading) (t1 v1 t2 v2 : ℚ),
      (m.handle_rain_gauge_change t (some v)).readings
          = rest ++ [(t1, v1, false), (t2, v2, false)] →
      0 < t2 - t1 →
      (m.handle_rain_gauge_change t (some v)).last_intensity
        = (v2 - v1) / ((t2 - t1) / 3600)) ∧
    ((((m.handle_rain_gauge_change t (some v)).readings.drop
          ((m.handle_rain_gauge_change t (some v)).readings.length - 2)).filter
          (fun r => !r.2.2)).length < 2 →
      (m.handle_rain_gauge_change t (some v)).last_intensity = 0) := by
  constructor
  · intro rest t1 v1 t2 v2 hread hpos
    rw [handle_change_intensity, hread, computeIntensity_last_two]
    rw [if_pos (div_pos hpos (by norm_num))]
  · intro h
    rw [handle_change_intensity]
    exact computeIntensity_short _ _ h

/-- C4 witness: readings (0, 5.0) and (1800 s = 30 min later, 7.0) yield
intensity (7 − 5) / (1800/3600 hr) = 4 mm/hr. -/
theorem intensity_last_two_slots_witness :
    (((RainMonitor.init 100 24).handle_rain_gauge_change 0
        (some 5)).handle_rain_gauge_change 1800 (some 7)).last_intensity
      = 4 := by
  have h := (intensity_last_two_slots
      ((RainMonitor.init 100 24).handle_rain_gauge_change 0 (some 5))
      1800 7).1 [] 0 5 1800 7
    (by norm_num [RainMonitor.handle_rain_gauge_change, RainMonitor.init,
      computeAccumulation, accumGo, computeIntensity])
    (by norm_num)
  rw [h]
  norm_num

/-- C7: `signalPeriodicReset(t)` sets `last_raw_value` to 0 and appends
exactly one reset marker `(t, 0.0, true)`, leaving every other part of the
state unchanged — no log entry is removed and accumulation and intensity
keep their prior values; an immediately following `ingestReading(t', 0.5)`
then increases the accumulation by exactly 0.5, because the post-reset
baseline is the reset marker's raw value 0. -/
theorem midnight_reset_frame_and_baseline (m : RainMonitor) (t t' : ℚ) :
    (m.handle_midnight_reset t).accumulation = m.accumulation ∧
    (m.handle_midnight_reset t).last_intensity = m.last_intensity ∧
    (m.handle_midnight_reset t).daily_accumulation = m.daily_accumulation ∧
    (m.handle_midnight_reset t).period = m.period ∧
    (m.handle_midnight_reset t).threshold = m.threshold ∧
    (m.handle_midnight_reset t).last_value = 0 ∧
    (m.handle_midnight_reset t).readings = m.readings ++ [(t, 0, true)] ∧
    (m.accumulation = computeAccumulation m.readings →
      (∀ r ∈ m.readings, t' - m.period < r.1) →
      t' - m.period < t → 0 < m.period →
      ((m.handle_midnight_reset t).handle_rain_gauge_change t'
          (some (1/2))).accumulation
        = m.accumulation + 1/2) := by
  refine ⟨rfl, rfl, rfl, rfl, rfl, rfl, rfl, fun hacc hold ht hper => ?_⟩
  have hnr : ¬ (1/2 : ℚ) < (m.handle_midnight_reset t).last_value := by
    show ¬ (1/2 : ℚ) < 0
    norm_num
  have htrim : ∀ r ∈ (m.handle_midnight_reset t).readings,
      t' - (m.handle_midnight_reset t).period < r.1 := by
    intro r hr
    have hr' : r ∈ m.readings ++ [(t, 0, true)] := hr
    rcases List.mem_append.mp hr' with h1 | h1
    · exact hold r h1
    · rw [List.mem_singleton.mp h1]
      exact ht
  rw [handle_change_nonreset_notrim _ t' (1/2) hnr htrim hper]
  show computeAccumulation ((m.readings ++ [(t, 0, true)]) ++ [(t', 1/2, false)])
      = m.accumulation + 1/2
  rw [List.append_assoc, List.singleton_append,
    computeAccumulation_reset_one m.readings t 0 t' (1/2), ← hacc]
  norm_num

/-- C7 witness: on a fresh monitor, midnight reset at time 0 followed by
ingesting 0.5 at time 60 yields accumulation 0 + 0.5. -/
theorem midnight_reset_frame_and_baseline_witness :
    (((RainMonitor.init 5 24).handle_midnight_reset 0).handle_rain_gauge_change
        60 (some (1/2))).accumulation = (RainMonitor.init 5 24).accumulation + 1/2 :=
  (midnight_reset_frame_and_baseline (RainMonitor.init 5 24) 0 60).2.2.2.2.2.2.2
    rfl (by simp [RainMonitor.init]) (by norm_num [RainMonitor.init])
    (by norm_num [RainMonitor.init])

/-- C8: a value decrease (classified as a reset and logged as a reset
marker with value r1), followed within the window by readings
r1 < r2 < r3, contributes exactly r3 − r1 for the post-reset segment, and
the pre-reset segment's contribution `computeAccumulation m.readings` is
unaffected by the reset reading's own value. -/
theorem reset_segment_contribution (m : RainMonitor)
    (ta tb tc r1 r2 r3 : ℚ)
    (hreset : r1 < m.last_value) (h12 : r1 < r2) (h23 : r2 < r3)
    (hab : ta ≤ tb) (hbc : tb ≤ tc)
    (hold : ∀ r ∈ m.readings, tc - m.period < r.1)
    (hta : tc - m.period < ta) (hper : 0 < m.period) :
    (((m.handle_rain_gauge_change ta (some r1)).handle_rain_gauge_change tb
        (some r2)).handle_rain_gauge_change tc (some r3)).accumulation
      = computeAccumulation m.readings + (r3 - r1) := by
  have htrim1 : ∀ r ∈ m.readings, ta - m.period < r.1 := by
    intro r hr
    have := hold r hr
    linarith
  rw [handle_change_reset_notrim m ta r1 hreset htrim1 hper]
  set m1 : RainMonitor :=
    { m with
      daily_accumulation := m.daily_accumulation + r1
      last_value := r1
      readings := m.readings ++ [(ta, r1, true)]
      accumulation := computeAccumulation (m.readings ++ [(ta, r1, true)])
      last_intensity := computeIntensity m.last_intensity
        (m.readings ++ [(ta, r1, true)]) } with hm1
  have hnr2 : ¬ r2 < m1.last_value := not_lt.mpr (le_of_lt h12)
  have htrim2 : ∀ r ∈ m1.readings, tb - m1.period < r.1 := by
    intro r hr
    have hr' : r ∈ m.readings ++ [(ta, r1, true)] := hr
    rcases List.mem_append.mp hr' with h1 | h1
    · have := hold r h1
      show tb - m.period < r.1
      linarith
    · rw [List.mem_singleton.mp h1]
      show tb - m.period < ta
      linarith
  rw [handle_change_nonreset_notrim m1 tb r2 hnr2 htrim2 hper]
  set m2 : RainMonitor :=
    { m1 with
      last_value := r2
      readings := m1.readings ++ [(tb, r2, false)]
      accumulation := computeAccumulation (m1.readings ++ [(tb, r2, false)])
      last_intensity := computeIntensity m1.last_intensity
        (m1.readings ++ [(tb, r2, false)]) } with hm2
  have hnr3 : ¬ r3 < m2.last_value := not_lt.mpr (le_of_lt h23)
  have htrim3 : ∀ r ∈ m2.readings, tc - m2.period < r.1 := by
    intro r hr
    have hr' : r ∈ (m.readings ++ [(ta, r1, true)]) ++ [(tb, r2, false)] := hr
    rcases List.mem_append.mp hr' with h1 | h1
    · rcases List.mem_append.mp h1 with h2 | h2
      · exact hold r h2
      · rw [List.mem_singleton.mp h2]
        exact hta
    · rw [List.mem_singleton.mp h1]
      show tc - m.period < tb
      linarith
  rw [handle_change_nonreset_notrim m2 tc r3 hnr3 htrim3 hper]
  show computeAccumulation
      (((m.readings ++ [(ta, r1, true)]) ++ [(tb, r2, false)]) ++ [(tc, r3, false)])
      = computeAccumulation m.readings + (r3 - r1)
  simp only [List.append_assoc, List.cons_append, List.nil_append]
  exact computeAccumulation_reset_two m.readings ta r1 tb r2 tc r3 h12 h23

/-- C8 witness: after a first reading of 10, the decrease to 3 is a reset;
readings 4 and 6 follow; the final accumulation is the pre-reset
contribution 0 plus (6 − 3) = 3. -/
theorem reset_segment_contribution_witness :
    (((((RainMonitor.init 100 24).handle_rain_gauge_change 0
        (some 10)).handle_rain_gauge_change 600
        (some 3)).handle_rain_gauge_change 1200
        (some 4)).handle_rain_gauge_change 1800 (some 6)).accumulation
      = computeAccumulation
          ((RainMonitor.init 100 24).handle_rain_gauge_change 0
            (some 10)).readings + (6 - 3) := by
  have h := reset_segment_contribution
    ((RainMonitor.init 100 24).handle_rain_gauge_change 0 (some 10))
    600 1200 1800 3 4 6
    (by norm_num [RainMonitor.handle_rain_gauge_change, RainMonitor.init,
      computeAccumulation, accumGo, computeIntensity])
    (by norm_num) (by norm_num) (by norm_num) (by norm_num)
    (by
      intro r hr
      have hread : ((RainMonitor.init 100 24).handle_rain_gauge_change 0
          (some 10)).readings = [((0:ℚ), (10:ℚ), false)] := by
        norm_num [RainMonitor.handle_rain_gauge_change, RainMonitor.init,
          computeAccumulation, accumGo, computeIntensity]
      rw [hread] at hr
      rw [List.mem_singleton.mp hr]
      norm_num [RainMonitor.handle_rain_gauge_change, RainMonitor.init])
    (by norm_num [RainMonitor.handle_rain_gauge_change, RainMonitor.init])
    (by norm_num [RainMonitor.handle_rain_gauge_change, RainMonitor.init])
  exact h

/-- C1 counterexample: ingest 10, then 3 (a decrease, logged as a reset
marker with raw value 3), then 5.  The claim predicts the reading after the
reset contributes its raw value measured from 0, i.e. accumulation 5; the
recomputation actually yields 5 − 3 = 2, because the post-reset baseline is
the reset marker's own raw value 3, not 0. -/
theorem postReset_zero_baseline_cex :
    (ingestSeq (RainMonitor.init 100 24)
        [(0, 10), (600, 3), (1200, 5)]).accumulation = 2 ∧
    ¬ (ingestSeq (RainMonitor.init 100 24)
        [(0, 10), (600, 3), (1200, 5)]).accumulation = 5 := by
  norm_num [ingestSeq, RainMonitor.handle_rain_gauge_change, RainMonitor.init,
    computeAccumulation, accumGo, computeIntensity]

/-- C1 (amended): for every retained log ending in a reset-marker entry
with raw value `v`, the accumulation recomputed by the next ingest computes
the first post-reset delta against the reset entry's own raw value `v` (not
against the pre-reset high value): the reset entry itself contributes
nothing, and the reading after it contributes the positive part of its raw
value measured from `v` — which is its full raw value exactly when `v = 0`,
as for periodic reset markers. -/
theorem postReset_delta_from_reset_raw_value (m : RainMonitor)
    (l : List Reading) (ta v t w : ℚ)
    (hlog : m.readings = l ++ [(ta, v, true)])
    (hw : ¬ w < m.last_value)
    (htrim : ∀ r ∈ m.readings, t - m.period < r.1)
    (hper : 0 < m.period) :
    (m.handle_rain_gauge_change t (some w)).accumulation
      = computeAccumulation l + (if w - v > 0 then w - v else 0) := by
  rw [handle_change_nonreset_notrim m t w hw htrim hper]
  show computeAccumulation (m.readings ++ [(t, w, false)])
      = computeAccumulation l + (if w - v > 0 then w - v else 0)
  rw [hlog, List.append_assoc, List.singleton_append]
  exact computeAccumulation_reset_one l ta v t w

/-- C1 (amended) witness: log `[(0, 10, false), (600, 3, true)]` (raw value
10, then reset marker with raw value 3), then ingest 5 at time 1200: the
accumulation is `computeAccumulation [(0, 10, false)] + (5 − 3)`, i.e. 2. -/
theorem postReset_delta_from_reset_raw_value_witness :
    ((ingestSeq (RainMonitor.init 100 24)
        [(0, 10), (600, 3)]).handle_rain_gauge_change 1200
        (some 5)).accumulation
      = computeAccumulation [((0:ℚ), (10:ℚ), false)]
        + (if (5:ℚ) - 3 > 0 then 5 - 3 else 0) := by
  refine postReset_delta_from_reset_raw_value _
    [((0:ℚ), (10:ℚ), false)] 600 3 1200 5 ?_ ?_ ?_ ?_ <;>
    norm_num [ingestSeq, RainMonitor.handle_rain_gauge_change, RainMonitor.init,
      computeAccumulation, accumGo, computeIntensity]

/-- C10: the code adds `current_value` — the new, post-reset raw value —
to `_daily_accumulation` on a reset, although its own comment says "Add the
final value before reset to accumulation": after observing 10, ingesting 3
(a reset whose pre-reset final value is 10) increases the carry by 3, not
by 10. -/
theorem daily_accumulation_adds_post_reset_value :
    ((RainMonitor.init 100 24).handle_rain_gauge_change 0
        (some 10)).last_value = 10 ∧
    ((RainMonitor.init 100 24).handle_rain_gauge_change 0
        (some 10)).daily_accumulation = 0 ∧
    (((RainMonitor.init 100 24).handle_rain_gauge_change 0
        (some 10)).handle_rain_gauge_change 600
        (some 3)).daily_accumulation = 3 := by
  norm_num [RainMonitor.handle_rain_gauge_change, RainMonitor.init,
    computeAccumulation, accumGo, computeIntensity]

/-- Running the gauge callback over a sequence of parsed readings none of
which is classified as a reset (values never decrease below the running
last value) and none of which triggers an eviction (all timestamps, old and
new, lie inside the window of every ingest up to the bound `T`): the log
grows by exactly the ingested readings as non-reset entries, and the final
accumulation is the recomputation over that log. -/
theorem ingestSeq_nonreset_notrim (l : List (ℚ × ℚ)) :
    ∀ (m : RainMonitor) (T : ℚ),
      List.Chain (· ≤ ·) m.last_value (l.map Prod.snd) →
      (∀ p ∈ l, p.1 ≤ T) →
      (∀ p ∈ l, T - m.period < p.1) →
      (∀ r ∈ m.readings, T - m.period < r.1) →
      0 < m.period →
      (ingestSeq m l).readings
          = m.readings ++ l.map (fun p => (p.1, p.2, false)) ∧
        (l ≠ [] → (ingestSeq m l).accumulation
          = computeAccumulation
              (m.readings ++ l.map (fun p => (p.1, p.2, false)))) := by
  induction l with
  | nil =>
      intro m T _ _ _ _ _
      exact ⟨by simp [ingestSeq], fun h => absurd rfl h⟩
  | cons x rest ih =>
      rcases x with ⟨t₁, v₁⟩
      intro m T hchain hle hgt hold hper
      simp only [List.map_cons] at hchain
      rcases List.chain_cons.mp hchain with ⟨hv, hrest⟩
      have htrim : ∀ r ∈ m.readings, t₁ - m.period < r.1 := by
        intro r hr
        have h1 := hold r hr
        have h2 := hle (t₁, v₁) (List.mem_cons_self _ _)
        have h2' : t₁ ≤ T := h2
        linarith
      have hstep := handle_change_nonreset_notrim m t₁ v₁ (not_lt.mpr hv) htrim hper
      have hseq : ingestSeq m ((t₁, v₁) :: rest)
          = ingestSeq (m.handle_rain_gauge_change t₁ (some v₁)) rest := rfl
      have hm'readings : (m.handle_rain_gauge_change t₁ (some v₁)).readings
          = m.readings ++ [(t₁, v₁, false)] := by rw [hstep]
      have hm'last : (m.handle_rain_gauge_change t₁ (some v₁)).last_value = v₁ := by
        rw [hstep]
      have hm'per : (m.handle_rain_gauge_change t₁ (some v₁)).period = m.period := by
        rw [hstep]
      have hm'acc : (m.handle_rain_gauge_change t₁ (some v₁)).accumulation
          = computeAccumulation (m.readings ++ [(t₁, v₁, false)]) := by rw [hstep]
      have ihm := ih (m.handle_rain_gauge_change t₁ (some v₁)) T
        (by rw [hm'last]; exact hrest)
        (fun p hp => hle p (List.mem_cons_of_mem _ hp))
        (fun p hp => by rw [hm'per]; exact hgt p (List.mem_cons_of_mem _ hp))
        (by
          intro r hr
          rw [hm'per]
          rw [hm'readings] at hr
          rcases List.mem_append.mp hr with h1 | h1
          · exact hold r h1
          · rw [List.mem_singleton.mp h1]
            exact hgt (t₁, v₁) (List.mem_cons_self _ _))
        (by rw [hm'per]; exact hper)
      rcases ihm with ⟨hreads, haccum⟩
      constructor
      · rw [hseq, hreads, hm'readings, List.append_assoc, List.singleton_append,
          List.map_cons]
      · intro _
        rcases eq_or_ne rest [] with rfl | hne
        · rw [hseq]
          show (m.handle_rain_gauge_change t₁ (some v₁)).accumulation = _
          rw [hm'acc]
          simp only [List.map_cons, List.map_nil, List.append_assoc,
            List.singleton_append]
        · rw [hseq, haccum hne, hm'readings, List.append_assoc,
            List.singleton_append, List.map_cons]

/-- C2: for every non-empty sequence of readings with strictly increasing
raw values (none classified as a reset — the first value is ≥ the fresh
monitor's last value 0) whose timestamps all lie within the window at every
ingest up to the final one, the accumulation after the final ingest equals
the last raw value minus the first (the telescoping sum); with a single
reading the accumulation is 0. -/
theorem accumulation_telescoping (th per T t₁ v₁ : ℚ) (rest : List (ℚ × ℚ))
    (hv₁ : 0 ≤ v₁)
    (hchain : List.Chain (· < ·) v₁ (rest.map Prod.snd))
    (hper : 0 < per)
    (hle : ∀ p ∈ (t₁, v₁) :: rest, p.1 ≤ T)
    (hwin : ∀ p ∈ (t₁, v₁) :: rest, T - 3600 * per < p.1) :
    (ingestSeq (RainMonitor.init th per) ((t₁, v₁) :: rest)).accumulation
      = (rest.map Prod.snd).getLastD v₁ - v₁ := by
  have h := ingestSeq_nonreset_notrim ((t₁, v₁) :: rest) (RainMonitor.init th per) T
    (by
      show List.Chain (· ≤ ·) 0 (((t₁, v₁) :: rest).map Prod.snd)
      rw [List.map_cons]
      exact List.Chain.cons hv₁ (hchain.imp fun a b hab => le_of_lt hab))
    hle
    (by
      intro p hp
      show T - 3600 * per < p.1
      exact hwin p hp)
    (by intro r hr; simp [RainMonitor.init] at hr)
    (by show (0:ℚ) < 3600 * per; linarith)
  rcases h with ⟨-, haccum⟩
  rw [haccum (by simp)]
  show computeAccumulation
      ((t₁, v₁, false) :: rest.map fun p => (p.1, p.2, false)) = _
  rw [computeAccumulation_cons,
    accumGo_chain_le rest 0 v₁ t₁ (hchain.imp fun a b hab => le_of_lt hab)]
  ring

/-- C2 witness: strictly increasing readings 1, 3, 7 at times 0, 10, 20
inside a 24-hour window give accumulation 7 − 1 = 6. -/
theorem accumulation_telescoping_witness :
    (ingestSeq (RainMonitor.init 100 24) [(0, 1), (10, 3), (20, 7)]).accumulation
      = 6 := by
  have h := accumulation_telescoping 100 24 20 0 1 [(10, 3), (20, 7)]
    (by norm_num)
    (by norm_num [List.chain_cons])
    (by norm_num)
    (by
      intro p hp
      rcases List.mem_cons.mp hp with rfl | hp1
      · norm_num
      rcases List.mem_cons.mp hp1 with rfl | hp2
      · norm_num
      rcases List.mem_cons.mp hp2 with rfl | hp3
      · norm_num
      · simp at hp3)
    (by
      intro p hp
      rcases List.mem_cons.mp hp with rfl | hp1
      · norm_num
      rcases List.mem_cons.mp hp1 with rfl | hp2
      · norm_num
      rcases List.mem_cons.mp hp2 with rfl | hp3
      · norm_num
      · simp at hp3)
  rw [h]
  norm_num [List.getLastD_cons]
